import Mathlib

/-!
Verification of the mutation_tester pipeline (analyzer, mutator, runner glue,
engine aggregation, report accounting) against its natural-language
specification.  The Rust sources are embedded shallowly: strings are lists of
characters (`Str`), `f64` score arithmetic is modelled exactly over `ℚ`, and
the effectful parts of the runner/engine (subprocess execution, temp
directories) are modelled as explicit environments passed to the pure engine
logic.  Character indices coincide with Rust byte indices on ASCII input; all
concrete inputs used below are ASCII.
-/

/-- Program strings, modelled as lists of characters. -/
abbrev Str := List Char

/-- Literal helper: the character list of a Lean string literal. -/
def str (s : String) : Str := s.toList

/-- Rust `str::find`: index of the first occurrence of `needle` in the
haystack, if any (`find_sub [] [] = some 0`, like Rust's empty-pattern
behaviour). -/
def find_sub : Str → Str → Option Nat
  | [], needle => if needle = [] then some 0 else none
  | c :: t, needle =>
    if needle.isPrefixOf (c :: t) then some 0 else (find_sub t needle).map (· + 1)

/-- Rust `str::contains`. -/
def contains_sub (hay needle : Str) : Bool := (find_sub hay needle).isSome

/-- Rust `str::trim` (ASCII-whitespace approximation of Unicode
`char::is_whitespace`; all inputs considered here are ASCII). -/
def rust_trim (s : Str) : Str :=
  ((s.dropWhile Char.isWhitespace).reverse.dropWhile Char.isWhitespace).reverse

/-- A `\r` left at the end of a line that was terminated by `\r\n` is stripped
by Rust's `str::lines`. -/
def strip_cr (l : Str) : Str := if l.getLast? = some '\r' then l.dropLast else l

/-- Split at the first `'\n'`: the part before it, and (when a `'\n'` exists)
the remainder after it. -/
def break_nl : Str → Str × Option Str
  | [] => ([], none)
  | c :: t =>
    if c = '\n' then ([], some t)
    else
      let r := break_nl t
      (c :: r.1, r.2)

/-- Fuel-driven worker for `rust_lines`; each step consumes at least the
terminating `'\n'`, so `s.length + 1` fuel always suffices. -/
def rust_lines_aux : Nat → Str → List Str
  | 0, _ => []
  | _, [] => []
  | fuel + 1, c :: t =>
    match break_nl (c :: t) with
    | (l, none) => [l]
    | (l, some rest) => strip_cr l :: rust_lines_aux fuel rest

/-- Rust `str::lines`: lines split at `\n` / `\r\n`, with no final empty line
for a trailing terminator. -/
def rust_lines (s : Str) : List Str := rust_lines_aux (s.length + 1) s

/-- Rust `Vec::join("\n")` on a vector of lines. -/
def join_nl (ls : List Str) : Str := List.intercalate ['\n'] ls

/-- `MutationType` from src/src/mutation/types.rs. -/
inductive MutationType where
  | ArithmeticOperator
  | RelationalOperator
  | LogicalOperator
  | AssignmentOperator
  | BitwiseOperator
  | IncrementDecrement
  | BooleanLiteral
  | NumericLiteral
  | StringLiteral
  | CharLiteral
  | ConditionalBoundary
  | LoopBoundary
  | StatementDeletion
  | ReturnValue
  | BreakContinueReplacement
  | NullCheck
  | OptionalUnwrap
  | VariableReference
  | FunctionCall
  | ConstantReplacement
  | MethodChain
  | ExceptionHandling
  | SwitchCase
  deriving DecidableEq

/-- `MutationCandidate` from src/src/mutation/types.rs. -/
structure MutationCandidate where
  line : Nat
  column : Nat
  original_code : Str
  mutation_type : MutationType
  suggested_mutations : List Str
  deriving DecidableEq

/-- `ReportFormat` from src/src/mutation/types.rs. -/
inductive ReportFormat where
  | JSON
  | CSV
  | HTML
  | Markdown
  | Console
  deriving DecidableEq

/-- `MutationTestConfig` from src/src/mutation/types.rs (`f64` fields carried
as `ℚ`). -/
structure MutationTestConfig where
  timeout_seconds : Nat
  max_mutations_per_line : Nat
  excluded_patterns : List Str
  test_command : Str
  mutation_types : List MutationType
  excluded_mutations : List MutationType
  excluded_files : List Str
  excluded_functions : List Str
  min_coverage_percent : Option ℚ
  parallel_jobs : Option Nat
  report_format : Option ReportFormat
  report_output_path : Option Str
  ast_mutations_enabled : Bool
  deriving DecidableEq

/-- `MutationTestConfig::default()` from src/src/mutation/types.rs. -/
def default_config : MutationTestConfig where
  timeout_seconds := 30
  max_mutations_per_line := 5
  excluded_patterns :=
    [str (r"// @no-mutation"), str (r"#[cfg(test)]"), str (r"#[test]")]
  test_command := str (r"cargo test")
  mutation_types :=
    [.ArithmeticOperator, .RelationalOperator, .LogicalOperator,
     .BooleanLiteral, .NumericLiteral, .ConditionalBoundary]
  excluded_mutations := []
  excluded_files := []
  excluded_functions := []
  min_coverage_percent := some 75
  parallel_jobs := some 4
  report_format := some .Console
  report_output_path := none
  ast_mutations_enabled := false

/-- The compound-operator neighbour set `"=!<>+-*/"` used by
`CodeAnalyzer::is_standalone_operator`. -/
def op_chars : Str := ['=', '!', '<', '>', '+', '-', '*', '/']

/-- `CodeAnalyzer::is_standalone_operator`: the characters immediately before
and after the occurrence must not belong to `op_chars`. -/
def is_standalone_operator (line : Str) (pos : Nat) (op : Str) : Bool :=
  (decide (pos = 0) || !(op_chars.contains (line.getD (pos - 1) ' '))) &&
  (decide (line.length ≤ pos + op.length) ||
    !(op_chars.contains (line.getD (pos + op.length) ' ')))

/-- `CodeAnalyzer::is_complete_word`: neighbours must not be alphanumeric or
underscore (ASCII approximation of `char::is_alphanumeric`). -/
def is_word_char (c : Char) : Bool := c.isAlphanum || c = '_'

/-- Word-boundary test shared by the analyzer (`is_complete_word`) and the
mutator (`is_word_boundary`); both Rust functions have exactly this body. -/
def is_complete_word (line : Str) (pos : Nat) (len : Nat) : Bool :=
  (decide (pos = 0) || !(is_word_char (line.getD (pos - 1) ' '))) &&
  (decide (line.length ≤ pos + len) || !(is_word_char (line.getD (pos + len) ' ')))

/-- The `while let Some(pos) = line[start..].find(op)` scan loops of the
operator finders: collect every match position, advancing by `advance` after
each match (`1` for the arithmetic finder, `op.len()` for the others).  The
advance is at least 1 in every use, so `line.length + 1` fuel is exact. -/
def find_ops_aux (line op : Str) (advance : Nat) : Nat → Nat → List Nat
  | 0, _ => []
  | fuel + 1, start =>
    match find_sub (line.drop start) op with
    | none => []
    | some pos => (start + pos) :: find_ops_aux line op advance fuel (start + pos + advance)

/-- All scan positions of `op` in `line` with the given advance. -/
def find_occurrences (line op : Str) (advance : Nat) : List Nat :=
  find_ops_aux line op advance (line.length + 1) 0

/-- `CodeAnalyzer::get_arithmetic_mutations`. -/
def get_arithmetic_mutations (op : Str) : List Str :=
  if op = ['+'] then [['-'], ['*']]
  else if op = ['-'] then [['+'], ['*']]
  else if op = ['*'] then [['/'], ['+']]
  else if op = ['/'] then [['*'], ['%']]
  else if op = ['%'] then [['/'], ['*']]
  else []

/-- `CodeAnalyzer::get_relational_mutations`. -/
def get_relational_mutations (op : Str) : List Str :=
  if op = ['=', '='] then [['!', '='], ['<'], ['>']]
  else if op = ['!', '='] then [['=', '=']]
  else if op = ['<'] then [['<', '='], ['>'], ['=', '=']]
  else if op = ['>'] then [['>', '='], ['<'], ['=', '=']]
  else if op = ['<', '='] then [['<'], ['>', '=']]
  else if op = ['>', '='] then [['>'], ['<', '=']]
  else []

/-- `CodeAnalyzer::get_logical_mutations`. -/
def get_logical_mutations (op : Str) : List Str :=
  if op = ['&', '&'] then [['|', '|']]
  else if op = ['|', '|'] then [['&', '&']]
  else if op = ['!'] then [[]]
  else []

/-- `i32::from_str` on the digit runs handed over by the numeric scanner:
an all-digit string parses when its value fits in `i32`. -/
def parse_i32 (s : Str) : Option Int :=
  if s ≠ [] ∧ s.all Char.isDigit then
    let v : Nat := s.foldl (fun acc c => acc * 10 + (c.toNat - 48)) 0
    if v ≤ 2147483647 then some (Int.ofNat v) else none
  else none

/-- Decimal rendering, as Rust's integer `to_string`. -/
def int_to_str (n : Int) : Str := str (toString n)

/-- `CodeAnalyzer::get_numeric_mutations`.  The inputs produced by the scanner
are maximal digit runs; values beyond `i32::MAX` take Rust's `f64` branch,
modelled here with exact integer arithmetic (exact below `2^53`; `f64`
rounding beyond that is not modelled — no claim depends on those values). -/
def get_numeric_mutations (number : Str) : List Str :=
  match parse_i32 number with
  | some n => [int_to_str (n + 1), int_to_str (n - 1), int_to_str (-n), ['0'], ['1']]
  | none =>
    if number ≠ [] ∧ number.all Char.isDigit then
      let v : Nat := number.foldl (fun acc c => acc * 10 + (c.toNat - 48)) 0
      [int_to_str (Int.ofNat v + 1), int_to_str (Int.ofNat v - 1),
       int_to_str (-(Int.ofNat v)), str (r"0.0"), str (r"1.0")]
    else [['0'], ['1']]

/-- `CodeAnalyzer::find_arithmetic_operators`: every scan position passing the
standalone filter becomes a candidate. -/
def find_arithmetic_operators (line : Str) (line_number : Nat) : List MutationCandidate :=
  List.flatMap [['+'], ['-'], ['*'], ['/'], ['%']] (fun op =>
    ((find_occurrences line op 1).filter (fun p => is_standalone_operator line p op)).map
      (fun p =>
        { line := line_number, column := p + 1, original_code := op,
          mutation_type := .ArithmeticOperator,
          suggested_mutations := get_arithmetic_mutations op }))

/-- `CodeAnalyzer::find_relational_operators`: every scan position becomes a
candidate — this finder applies no standalone filter. -/
def find_relational_operators (line : Str) (line_number : Nat) : List MutationCandidate :=
  List.flatMap [['=', '='], ['!', '='], ['<'], ['>'], ['<', '='], ['>', '=']] (fun op =>
    (find_occurrences line op op.length).map
      (fun p =>
        { line := line_number, column := p + 1, original_code := op,
          mutation_type := .RelationalOperator,
          suggested_mutations := get_relational_mutations op }))

/-- `CodeAnalyzer::find_logical_operators`: every scan position becomes a
candidate — this finder applies no standalone filter. -/
def find_logical_operators (line : Str) (line_number : Nat) : List MutationCandidate :=
  List.flatMap [['&', '&'], ['|', '|'], ['!']] (fun op =>
    (find_occurrences line op op.length).map
      (fun p =>
        { line := line_number, column := p + 1, original_code := op,
          mutation_type := .LogicalOperator,
          suggested_mutations := get_logical_mutations op }))

/-- `CodeAnalyzer::find_boolean_literals`. -/
def find_boolean_literals (line : Str) (line_number : Nat) : List MutationCandidate :=
  List.flatMap [str (r"true"), str (r"false")] (fun lit =>
    let mutation := if lit = str (r"true") then str (r"false") else str (r"true")
    ((find_occurrences line lit lit.length).filter
        (fun p => is_complete_word line p lit.length)).map
      (fun p =>
        { line := line_number, column := p + 1, original_code := lit,
          mutation_type := .BooleanLiteral,
          suggested_mutations := [mutation] }))

/-- The digit-run scan of `CodeAnalyzer::find_numeric_literals`: positions and
contents of the maximal ASCII-digit runs of the suffix `s` of the line, `i`
being the index of `s`'s head in the full line. -/
def digit_runs_aux : Nat → Str → Nat → List (Nat × Str)
  | 0, _, _ => []
  | _, [], _ => []
  | fuel + 1, c :: t, i =>
    if c.isDigit then
      let run := List.takeWhile Char.isDigit (c :: t)
      (i, run) :: digit_runs_aux fuel (List.dropWhile Char.isDigit (c :: t)) (i + run.length)
    else digit_runs_aux fuel t (i + 1)

/-- Maximal digit runs of a line, with their start positions. -/
def digit_runs (line : Str) : List (Nat × Str) := digit_runs_aux (line.length + 1) line 0

/-- `CodeAnalyzer::find_numeric_literals`. -/
def find_numeric_literals (line : Str) (line_number : Nat) : List MutationCandidate :=
  (digit_runs line).map (fun pr =>
    { line := line_number, column := pr.1 + 1, original_code := pr.2,
      mutation_type := .NumericLiteral,
      suggested_mutations := get_numeric_mutations pr.2 })

/-- `CodeAnalyzer::find_conditional_boundaries`: the textual scanner emits
none. -/
def find_conditional_boundaries (_line : Str) (_line_number : Nat) : List MutationCandidate :=
  []

/-- `CodeAnalyzer::should_skip_line`. -/
def should_skip_line (config : MutationTestConfig) (line : Str) : Bool :=
  config.excluded_patterns.any (fun p => contains_sub line p) ||
  contains_sub line (str (r"// mutation-ignore")) ||
  contains_sub line (str (r"#[mutation_ignore]")) ||
  (let trimmed := rust_trim line
   trimmed.isEmpty ||
   (str (r"//")).isPrefixOf trimmed ||
   (str (r"#")).isPrefixOf trimmed ||
   (str (r"/*")).isPrefixOf trimmed ||
   (str (r"*/")).isSuffixOf trimmed ||
   (str (r"fn ")).isPrefixOf trimmed ||
   (str (r"pub fn ")).isPrefixOf trimmed ||
   (str (r"let ")).isPrefixOf trimmed ||
   (str (r"const ")).isPrefixOf trimmed)

/-- `CodeAnalyzer::analyze_line`: concatenate the finders enabled by
`config.mutation_types`, in source order. -/
def analyze_line (config : MutationTestConfig) (line : Str) (line_number : Nat) :
    List MutationCandidate :=
  (if config.mutation_types.contains .ArithmeticOperator then
    find_arithmetic_operators line line_number else []) ++
  (if config.mutation_types.contains .RelationalOperator then
    find_relational_operators line line_number else []) ++
  (if config.mutation_types.contains .LogicalOperator then
    find_logical_operators line line_number else []) ++
  (if config.mutation_types.contains .BooleanLiteral then
    find_boolean_literals line line_number else []) ++
  (if config.mutation_types.contains .NumericLiteral then
    find_numeric_literals line line_number else []) ++
  (if config.mutation_types.contains .ConditionalBoundary then
    find_conditional_boundaries line line_number else [])

/-- `CodeAnalyzer::find_mutation_candidates`: split into lines (1-indexed),
drop skipped lines, concatenate the per-line candidates. -/
def find_mutation_candidates (config : MutationTestConfig) (source_code : Str) :
    List MutationCandidate :=
  List.flatMap (rust_lines source_code).enum (fun p =>
    if should_skip_line config p.2 then [] else analyze_line config p.2 (p.1 + 1))

/-- Mutator: remove/insert splice target. `slice_at l pos n` is the window
`chars[pos..pos+n]`. -/
def slice_at (l : Str) (pos len : Nat) : Str := (l.drop pos).take len

/-- The removal loop of `CodeMutator::replace_operator_at_position`: `n` times
`if pos < result_chars.len() { result_chars.remove(pos); }` (`eraseIdx` is the
identity out of range, exactly like the guarded `remove`). -/
def remove_n (l : Str) (pos : Nat) : Nat → Str
  | 0 => l
  | n + 1 => remove_n (l.eraseIdx pos) pos n

/-- Rust `Vec::insert` (its out-of-range panic is unreachable in every use
below; inserting at or past the end appends). -/
def insert_at (l : Str) (pos : Nat) (c : Char) : Str := l.take pos ++ c :: l.drop pos

/-- The insertion loop of `CodeMutator::replace_operator_at_position`:
`result_chars.insert(pos + i, ch)` for each replacement character in order. -/
def insert_seq (l : Str) (pos : Nat) : Str → Str
  | [] => l
  | c :: r => insert_seq (insert_at l pos c) (pos + 1) r

/-- The in-place splice performed by the two loops. -/
def splice (l : Str) (pos olen : Nat) (repl : Str) : Str :=
  insert_seq (remove_n l pos olen) pos repl

/-- `CodeMutator::find_nearest_occurrence`: first occurrence of `target`
inside the ±10-character window around `around_pos`. -/
def find_nearest_occurrence (line : Str) (around_pos : Nat) (target : Str) : Option Nat :=
  let start := around_pos - 10
  let stop := min (around_pos + 10) line.length
  (find_sub ((line.take stop).drop start) target).map (· + start)

/-- `CodeMutator::replace_operator_at_position`, fuel-driven: on a window
mismatch the Rust function re-enters itself at the position returned by
`find_nearest_occurrence`; such a position always carries a matching window,
so the real recursion depth is at most 2 and the fuel default below is never
exhausted. -/
def replace_operator_aux : Nat → Str → Nat → Str → Str → Except Str Str
  | 0, _, _, original, _ =>
    .error (str (r"Original text ") ++ original ++ str (r" not found"))
  | fuel + 1, line, pos, original, replacement =>
    if line.length ≤ pos then .error (str (r"Position out of bounds"))
    else if line.length < pos + original.length then
      .error (str (r"Original text extends beyond line"))
    else if slice_at line pos original.length = original then
      .ok (splice line pos original.length replacement)
    else
      match find_nearest_occurrence line pos original with
      | some found_pos => replace_operator_aux fuel line found_pos original replacement
      | none =>
        .error (str (r"Original text ") ++ original ++
          str (r" not found at position ") ++ int_to_str pos)

/-- `CodeMutator::replace_operator_at_position`. -/
def replace_operator_at_position (line : Str) (pos : Nat) (original replacement : Str) :
    Except Str Str :=
  replace_operator_aux (line.length + 2) line pos original replacement

/-- `CodeMutator::find_complete_word_at_position`: scan the inclusive index
range `[around_pos - word.len(), min (around_pos + word.len()) line.len()]`
for the first in-bounds window equal to `word` with word boundaries
(`CodeMutator::is_word_boundary` has the same body as the analyzer's
`is_complete_word`). -/
def find_complete_word_at_position (line : Str) (around_pos : Nat) (word : Str) :
    Option Nat :=
  let search_start := around_pos - word.length
  let search_stop := min (around_pos + word.length) line.length
  (List.range' search_start (search_stop + 1 - search_start)).find? (fun i =>
    decide (i + word.length ≤ line.length) &&
    (slice_at line i word.length == word) &&
    is_complete_word line i word.length)

/-- `CodeMutator::replace_literal_at_position`. -/
def replace_literal_at_position (line : Str) (pos : Nat) (original replacement : Str) :
    Except Str Str :=
  match find_complete_word_at_position line pos original with
  | some found_pos => replace_operator_at_position line found_pos original replacement
  | none =>
    .error (str (r"Literal ") ++ original ++
      str (r" not found as complete word near position ") ++ int_to_str pos)

/-- The paren fallback of `CodeMutator::find_condition_range`: nearest `'('`
strictly before `around_pos` (exclusive bound becomes the interior start) and
nearest `')'` at or after it. -/
def paren_range (line : Str) (around_pos : Nat) : Option (Nat × Nat) :=
  let ps := (((List.range around_pos).reverse).find? (fun i => line.getD i ' ' == '(')).map (· + 1)
  let pe := (List.range' around_pos (line.length - around_pos)).find? (fun i => line.getD i ' ' == ')')
  match ps, pe with
  | some s, some e => some (s, e)
  | _, _ => none

/-- `CodeMutator::find_condition_range`. -/
def find_condition_range (line : Str) (around_pos : Nat) : Option (Nat × Nat) :=
  match find_sub line (str ("if ")) with
  | some if_pos =>
    match find_sub (line.drop (if_pos + 3)) (str (" \x7b")) with
    | some brace_pos => some (if_pos + 3, if_pos + 3 + brace_pos)
    | none => paren_range line around_pos
  | none => paren_range line around_pos

/-- `CodeMutator::replace_condition_at_position`. -/
def replace_condition_at_position (line : Str) (pos : Nat) (replacement : Str) :
    Except Str Str :=
  match find_condition_range line pos with
  | some r => .ok (line.take r.1 ++ replacement ++ line.drop r.2)
  | none => .error (str (r"Could not find condition boundaries"))

/-- `CodeMutator::apply_line_mutation`. -/
def apply_line_mutation (line : Str) (candidate : MutationCandidate) (mutation : Str) :
    Except Str Str :=
  let target_pos := candidate.column - 1
  match candidate.mutation_type with
  | .ArithmeticOperator | .RelationalOperator | .LogicalOperator =>
    replace_operator_at_position line target_pos candidate.original_code mutation
  | .BooleanLiteral =>
    replace_literal_at_position line target_pos candidate.original_code mutation
  | .NumericLiteral =>
    replace_literal_at_position line target_pos candidate.original_code mutation
  | .ConditionalBoundary => replace_condition_at_position line target_pos mutation
  | _ => .error (str (r"Unsupported mutation type"))

/-- `CodeMutator::apply_mutation`. -/
def apply_mutation (source_code : Str) (candidate : MutationCandidate) (mutation : Str) :
    Except Str Str :=
  if mutation ∉ candidate.suggested_mutations then
    .error (str (r"Mutation ") ++ mutation ++
      str (r" is not in the suggested mutations list"))
  else
    let lines := rust_lines source_code
    if candidate.line = 0 ∨ lines.length < candidate.line then
      .error (str (r"Invalid line number: ") ++ int_to_str candidate.line)
    else
      match apply_line_mutation (lines.getD (candidate.line - 1) []) candidate mutation with
      | .error e => .error e
      | .ok mutated_line => .ok (join_nl (lines.set (candidate.line - 1) mutated_line))

/-- `runner::TestOutcome` from src/src/mutation/runner.rs. -/
inductive RunnerOutcome where
  | Survived
  | Killed (killing_tests : List Str)
  | Timeout
  | Error
  deriving DecidableEq

/-- `types::TestOutcome` from src/src/mutation/types.rs. -/
inductive TestOutcome where
  | Killed (killing_tests : List Str)
  | Survived
  | Timeout
  | Error
  | Skipped
  deriving DecidableEq

/-- `impl From<runner::TestOutcome> for types::TestOutcome`. -/
def outcome_from_runner : RunnerOutcome → TestOutcome
  | .Killed kt => .Killed kt
  | .Survived => .Survived
  | .Timeout => .Timeout
  | .Error => .Error

/-- Joint result of `tokio::time::timeout(execute_test_command)`: the timer
fired, the spawn/IO layer failed, or the subprocess exited with a status
code. -/
inductive ExecResult where
  | timeout
  | io_error
  | exit (code : Int)
  deriving DecidableEq

/-- Environment of one `MutationRunner`: whether scratch-directory creation
and the source write succeed, and what the configured test command does on
each materialized source tree. -/
structure RunnerEnv where
  tempdir_ok : Bool
  write_ok : Bool
  exec : Str → ExecResult

/-- `MutationRunner::run_tests_for_mutation`: the outcome classification of
src/src/mutation/runner.rs lines 29-76, including the hard-coded
`killing_tests` names of the non-zero-exit branch (the streams of the
subprocess are discarded via `Stdio::null()`). -/
def run_tests_for_mutation (env : RunnerEnv) (mutated_code : Str) : RunnerOutcome :=
  if !env.tempdir_ok then .Error
  else if !env.write_ok then .Error
  else
    match env.exec mutated_code with
    | .timeout => .Timeout
    | .io_error => .Error
    | .exit code =>
      if code = 0 then .Survived
      else .Killed [str (r"test_example_1"), str (r"test_example_2")]

/-- `MutationRunner::run_baseline_tests`. -/
def run_baseline_tests (env : RunnerEnv) (original_code : Str) : Except Str Bool :=
  if !env.tempdir_ok then .error (str (r"Failed to create temp dir"))
  else if !env.write_ok then .error (str (r"Failed to write original code"))
  else
    match env.exec original_code with
    | .exit c => .ok (decide (c = 0))
    | .io_error => .error (str (r"Failed to execute baseline tests"))
    | .timeout => .error (str (r"Baseline tests timed out"))

/-- `MutationRunner::validate_test_setup`: textual test-marker probe, then the
baseline run (whose boolean verdict the source discards). -/
def validate_test_setup (env : RunnerEnv) (source_code : Str) : Except Str Unit :=
  if !(contains_sub source_code (str ("#[test]")) ||
       contains_sub source_code (str ("#[cfg(test)]"))) then
    .error (str (r"No test functions found in source code. Mutation testing requires tests to be effective."))
  else
    match run_baseline_tests env source_code with
    | .error e => .error e
    | .ok _ => .ok ()

/-- `MutationResult` from src/src/mutation/types.rs (`execution_time_ms` is
wall-clock and not modelled; it is carried as a field so the record shape
matches). -/
structure MutationResult where
  candidate : MutationCandidate
  mutated_code : Str
  test_result : TestOutcome
  execution_time_ms : Nat
  error_message : Option Str
  killing_tests : Option (List Str)
  suggested_improvement : Option Str
  deriving DecidableEq

/-- The fixed improvement hint attached to survived mutations by the engine. -/
def suggested_improvement_text : Str :=
  str (r"Add or improve tests to catch this mutation (e.g., assert on edge cases or logic).")

/-- `MutationEngine::process_candidate`: one `MutationResult` per suggested
replacement, in order.  `run` is the runner applied to the mutated code;
timing is not modelled (0 ms). -/
def process_candidate (run : Str → RunnerOutcome) (source_code : Str)
    (candidate : MutationCandidate) : List MutationResult :=
  candidate.suggested_mutations.map (fun mutation =>
    match apply_mutation source_code candidate mutation with
    | .ok mutated_code =>
      let test_outcome := outcome_from_runner (run mutated_code)
      { candidate := candidate
        mutated_code := mutated_code
        test_result := test_outcome
        execution_time_ms := 0
        error_message := none
        killing_tests :=
          match test_outcome with
          | .Killed kt => some kt
          | _ => none
        suggested_improvement :=
          if test_outcome = .Survived then some suggested_improvement_text else none }
    | .error e =>
      { candidate := candidate
        mutated_code := []
        test_result := .Error
        execution_time_ms := 0
        error_message := some e
        killing_tests := none
        suggested_improvement := none })

/-- `MutationReport` from src/src/mutation/types.rs (`f64` fields as `ℚ`). -/
structure MutationReport where
  total_mutations : Nat
  killed_mutations : Nat
  survived_mutations : Nat
  error_mutations : Nat
  timeout_mutations : Nat
  skipped_mutations : Nat
  mutation_score : ℚ
  execution_time_seconds : ℚ
  results : List MutationResult
  deriving DecidableEq

/-- `MutationReport::new`. -/
def MutationReport.new : MutationReport where
  total_mutations := 0
  killed_mutations := 0
  survived_mutations := 0
  error_mutations := 0
  timeout_mutations := 0
  skipped_mutations := 0
  mutation_score := 0
  execution_time_seconds := 0
  results := []

/-- `MutationReport::calculate_score` (exact rational model of the `f64`
computation). -/
def calculate_score (r : MutationReport) : MutationReport :=
  let detected := r.killed_mutations + r.timeout_mutations
  let total_tested := r.total_mutations - r.skipped_mutations - r.error_mutations
  if 0 < total_tested then
    { r with mutation_score := ((detected : ℚ) / (total_tested : ℚ)) * 100 }
  else
    { r with mutation_score := 0 }

/-- `MutationReport::add_result`. -/
def add_result (r : MutationReport) (result : MutationResult) : MutationReport :=
  let r1 := { r with
    total_mutations := r.total_mutations + 1
    execution_time_seconds := r.execution_time_seconds + (result.execution_time_ms : ℚ) / 1000 }
  let r2 :=
    match result.test_result with
    | .Killed _ => { r1 with killed_mutations := r1.killed_mutations + 1 }
    | .Survived => { r1 with survived_mutations := r1.survived_mutations + 1 }
    | .Error => { r1 with error_mutations := r1.error_mutations + 1 }
    | .Timeout => { r1 with timeout_mutations := r1.timeout_mutations + 1 }
    | .Skipped => { r1 with skipped_mutations := r1.skipped_mutations + 1 }
  calculate_score { r2 with results := r2.results ++ [result] }

/-- A report built from `MutationReport::new()` by a sequence of
`add_result` calls. -/
def build_report (results : List MutationResult) : MutationReport :=
  results.foldl add_result MutationReport.new

/-- `MutationEngine::run_mutation_testing`: validate the baseline, enumerate
candidates, return an empty report when there are none, otherwise aggregate
the per-candidate results in candidate order (the parallel fan-out preserves
exactly this order).  Wall-clock stamping of `execution_time_seconds` is not
modelled. -/
def run_mutation_testing (env : RunnerEnv) (config : MutationTestConfig)
    (source_code : Str) : Except Str MutationReport :=
  match validate_test_setup env source_code with
  | .error e => .error e
  | .ok _ =>
    let candidates := find_mutation_candidates config source_code
    if candidates = [] then .ok MutationReport.new
    else
      .ok (build_report (candidates.flatMap
        (process_candidate (run_tests_for_mutation env) source_code)))

/-- The score that `calculate_score` assigns, as a function of the counters. -/
def score_formula (r : MutationReport) : ℚ :=
  if 0 < r.total_mutations - r.skipped_mutations - r.error_mutations then
    (((r.killed_mutations + r.timeout_mutations : Nat) : ℚ) /
      ((r.total_mutations - r.skipped_mutations - r.error_mutations : Nat) : ℚ)) * 100
  else 0

/-- The accounting invariant maintained by `MutationReport::new` /
`add_result`. -/
def report_inv (r : MutationReport) : Prop :=
  r.total_mutations = r.results.length ∧
  r.total_mutations =
    r.killed_mutations + r.survived_mutations + r.timeout_mutations +
      r.error_mutations + r.skipped_mutations ∧
  r.mutation_score = score_formula r

theorem calculate_score_eq (r : MutationReport) :
    calculate_score r = { r with mutation_score := score_formula r } := by
  simp only [calculate_score]
  split
  next h => simp [score_formula, h]
  next h => simp [score_formula, h]

theorem report_inv_new : report_inv MutationReport.new := by
  refine ⟨rfl, rfl, ?_⟩
  simp [MutationReport.new, score_formula]

theorem report_inv_add (r : MutationReport) (x : MutationResult) (h : report_inv r) :
    report_inv (add_result r x) := by
  obtain ⟨h1, h2, _⟩ := h
  cases hx : x.test_result <;>
    (simp only [add_result, hx, calculate_score_eq]
     refine ⟨?_, ?_, rfl⟩)
  all_goals simp [h1]
  all_goals omega

theorem report_inv_build (results : List MutationResult) : report_inv (build_report results) := by
  have h : ∀ (acc : MutationReport), report_inv acc →
      report_inv (results.foldl add_result acc) := by
    induction results with
    | nil => intro acc hacc; exact hacc
    | cons x t ih => intro acc hacc; exact ih _ (report_inv_add acc x hacc)
  exact h _ report_inv_new

/-- C1: for every MutationReport built from `MutationReport::new()` by a
sequence of `add_result` calls, `mutation_score` equals
`100·(killed + timeout)/(total − skipped − error)` when that denominator is
positive, and `0` when the denominator is `0`.  The `f64` arithmetic is
modelled exactly over `ℚ`, so the equality is exact and in particular holds
within `1e-9`. -/
theorem spec_C1 (results : List MutationResult) :
    (0 < (build_report results).total_mutations - (build_report results).skipped_mutations -
        (build_report results).error_mutations →
      (build_report results).mutation_score =
        100 * (((build_report results).killed_mutations +
            (build_report results).timeout_mutations : Nat) : ℚ) /
          (((build_report results).total_mutations - (build_report results).skipped_mutations -
            (build_report results).error_mutations : Nat) : ℚ)) ∧
    ((build_report results).total_mutations - (build_report results).skipped_mutations -
        (build_report results).error_mutations = 0 →
      (build_report results).mutation_score = 0) := by
  obtain ⟨-, -, hs⟩ := report_inv_build results
  constructor
  · intro hpos
    rw [hs, score_formula, if_pos hpos]
    ring
  · intro hz
    rw [hs, score_formula, if_neg (by omega)]

/-- Witness for C1 at a one-element result sequence with a killed outcome. -/
def cand_plus : MutationCandidate where
  line := 1
  column := 3
  original_code := ['+']
  mutation_type := .ArithmeticOperator
  suggested_mutations := [['-'], ['*']]

def res_killed : MutationResult where
  candidate := cand_plus
  mutated_code := str (r"a - b")
  test_result := .Killed []
  execution_time_ms := 0
  error_message := none
  killing_tests := some []
  suggested_improvement := none

theorem spec_C1_witness :
    0 < (build_report [res_killed]).total_mutations -
        (build_report [res_killed]).skipped_mutations -
        (build_report [res_killed]).error_mutations ∧
    (build_report [res_killed]).mutation_score =
      100 * (((build_report [res_killed]).killed_mutations +
          (build_report [res_killed]).timeout_mutations : Nat) : ℚ) /
        (((build_report [res_killed]).total_mutations -
          (build_report [res_killed]).skipped_mutations -
          (build_report [res_killed]).error_mutations : Nat) : ℚ) :=
  ⟨by decide, (spec_C1 [res_killed]).1 (by decide)⟩

/-- C2: for every MutationReport built from `MutationReport::new()` by a
sequence of `add_result` calls, `total_mutations` equals the length of the
results list and the sum of the five outcome counters. -/
theorem spec_C2 (results : List MutationResult) :
    (build_report results).total_mutations = (build_report results).results.length ∧
    (build_report results).total_mutations =
      (build_report results).killed_mutations + (build_report results).survived_mutations +
        (build_report results).timeout_mutations + (build_report results).error_mutations +
        (build_report results).skipped_mutations := by
  obtain ⟨h1, h2, -⟩ := report_inv_build results
  exact ⟨h1, h2⟩

/-- C9: after `MutationReport::new()` and any sequence of `add_result` calls,
`killed + timeout` never exceeds `total − skipped − error`, and the mutation
score lies in `[0, 100]`. -/
theorem spec_C9 (results : List MutationResult) :
    (build_report results).killed_mutations + (build_report results).timeout_mutations ≤
      (build_report results).total_mutations - (build_report results).skipped_mutations -
        (build_report results).error_mutations ∧
    0 ≤ (build_report results).mutation_score ∧
    (build_report results).mutation_score ≤ 100 := by
  obtain ⟨-, h2, hs⟩ := report_inv_build results
  refine ⟨by omega, ?_, ?_⟩
  · rw [hs, score_formula]
    split
    · positivity
    · exact le_refl 0
  · rw [hs, score_formula]
    split
    next hpos =>
      have hle : (build_report results).killed_mutations +
          (build_report results).timeout_mutations ≤
          (build_report results).total_mutations - (build_report results).skipped_mutations -
            (build_report results).error_mutations := by omega
      have hq : (((build_report results).killed_mutations +
          (build_report results).timeout_mutations : Nat) : ℚ) /
          (((build_report results).total_mutations - (build_report results).skipped_mutations -
            (build_report results).error_mutations : Nat) : ℚ) ≤ 1 := by
        rw [div_le_one (by exact_mod_cast hpos)]
        exact_mod_cast hle
      calc _ ≤ (1 : ℚ) * 100 := by
              exact mul_le_mul_of_nonneg_right hq (by norm_num)
           _ = 100 := by norm_num
    next => norm_num

theorem should_skip_line_congr (c1 c2 : MutationTestConfig)
    (h : c1.excluded_patterns = c2.excluded_patterns) (line : Str) :
    should_skip_line c1 line = should_skip_line c2 line := by
  unfold should_skip_line
  rw [h]

theorem analyze_line_congr (c1 c2 : MutationTestConfig)
    (h : c1.mutation_types = c2.mutation_types) (line : Str) (n : Nat) :
    analyze_line c1 line n = analyze_line c2 line n := by
  unfold analyze_line
  rw [h]

/-- C10: `find_mutation_candidates` reads only `excluded_patterns` and
`mutation_types` from the configuration; two configurations agreeing on those
two fields produce identical candidate lists.  In particular
`max_mutations_per_line`, `excluded_mutations`, `excluded_files` and
`excluded_functions` have no influence on the analyzer. -/
theorem spec_C10 (c1 c2 : MutationTestConfig)
    (hpat : c1.excluded_patterns = c2.excluded_patterns)
    (hty : c1.mutation_types = c2.mutation_types) (source_code : Str) :
    find_mutation_candidates c1 source_code = find_mutation_candidates c2 source_code := by
  unfold find_mutation_candidates
  refine congrArg _ (funext fun p => ?_)
  rw [should_skip_line_congr c1 c2 hpat, analyze_line_congr c1 c2 hty]

/-- A configuration agreeing with the default one on `excluded_patterns` and
`mutation_types` but differing everywhere else. -/
def altered_config : MutationTestConfig :=
  { default_config with
    timeout_seconds := 1
    max_mutations_per_line := 0
    test_command := str (r"cargo test --release")
    excluded_mutations := [.ArithmeticOperator, .NumericLiteral]
    excluded_files := [str (r"src/lib.rs")]
    excluded_functions := [str (r"main")]
    min_coverage_percent := none
    parallel_jobs := some 1
    report_format := some .JSON
    ast_mutations_enabled := true }

theorem spec_C10_witness :
    default_config.excluded_patterns = altered_config.excluded_patterns ∧
    default_config.mutation_types = altered_config.mutation_types ∧
    find_mutation_candidates default_config (str (r"if a != b && !c") ++ ['\n'] ++ str (r"x = x % 2;")) =
      find_mutation_candidates altered_config (str (r"if a != b && !c") ++ ['\n'] ++ str (r"x = x % 2;")) :=
  ⟨rfl, rfl, spec_C10 default_config altered_config rfl rfl _⟩

/-- The source line `a <= b` on which the relational finder splits the
compound operator `<=`. -/
def line_le : Str := str (r"a <= b")

/-- The sub-token candidate the relational finder emits on `a <= b`: the bare
`<` at column 3, whose right neighbour is `=`. -/
def cand_lt : MutationCandidate where
  line := 1
  column := 3
  original_code := ['<']
  mutation_type := .RelationalOperator
  suggested_mutations := [['<', '='], ['>'], ['=', '=']]

/-- C4 counterexample: on the source `a <= b` the analyzer (with the default
configuration, relational operators enabled) emits a candidate for the bare
`<` inside the compound operator `<=` — an occurrence that is not standalone,
its right neighbour being `=`.  Only the arithmetic finder applies the
standalone filter. -/
theorem spec_C4_cex :
    cand_lt ∈ find_mutation_candidates default_config line_le ∧
    is_standalone_operator line_le (cand_lt.column - 1) cand_lt.original_code = false := by
  decide

/-- C4 amended: the standalone acceptance rule holds for the arithmetic
finder — every candidate it emits passes `is_standalone_operator` at its
position — while the relational and logical finders emit every literal
occurrence unfiltered (see the counterexample). -/
theorem spec_C4 (line : Str) (n : Nat) (c : MutationCandidate)
    (h : c ∈ find_arithmetic_operators line n) :
    is_standalone_operator line (c.column - 1) c.original_code = true := by
  simp only [find_arithmetic_operators, List.mem_flatMap, List.mem_map, List.mem_filter] at h
  obtain ⟨op, -, p, ⟨-, hp⟩, rfl⟩ := h
  simpa using hp

theorem spec_C4_witness :
    cand_plus ∈ find_arithmetic_operators (str (r"a + b")) 1 ∧
    is_standalone_operator (str (r"a + b")) (cand_plus.column - 1) cand_plus.original_code = true :=
  ⟨by decide, spec_C4 (str (r"a + b")) 1 cand_plus (by decide)⟩

/-- A runner environment whose scratch setup succeeds and whose test command
exits with status 101 (a failing `cargo test`). -/
def env_exit_101 : RunnerEnv where
  tempdir_ok := true
  write_ok := true
  exec := fun _ => .exit 101

/-- C8: when the subprocess exits non-zero within the timeout the runner does
classify the outcome as Killed, but it populates `killing_tests` with the
hard-coded placeholder names `test_example_1`, `test_example_2` — the
subprocess's streams are discarded (`Stdio::null()`), so these names cannot
come from its output, contradicting the claim that `killing_tests` holds
parsed failing-test names or the empty list. -/
theorem spec_C8 :
    run_tests_for_mutation env_exit_101 (str (r"fn main() |")) =
      .Killed [str (r"test_example_1"), str (r"test_example_2")] ∧
    [str (r"test_example_1"), str (r"test_example_2")] ≠ ([] : List Str) := by
  constructor
  · rfl
  · decide

/-- A benign runner environment (everything succeeds, tests pass). -/
def env_ok : RunnerEnv where
  tempdir_ok := true
  write_ok := true
  exec := fun _ => .exit 0

/-- C6 counterexample: on the empty source the engine does not return Ok with
an empty report — `validate_test_setup` fails first (the empty source has no
test marker), so `run_mutation_testing` returns an error even in an
environment where every test run would succeed. -/
theorem spec_C6_cex :
    run_mutation_testing env_ok default_config [] =
      .error (str (r"No test functions found in source code. Mutation testing requires tests to be effective.")) := by
  rfl

/-- C6 amended: on the empty source the analyzer returns the empty candidate
list, but `run_mutation_testing` returns an error (baseline validation fails:
no test markers) in every environment and configuration; the Ok-empty-report
path is reachable only after validation passes. -/
theorem spec_C6 (env : RunnerEnv) (config : MutationTestConfig) :
    find_mutation_candidates config [] = [] ∧
    ∃ e, run_mutation_testing env config [] = .error e ∧ e ≠ [] := by
  refine ⟨rfl, str (r"No test functions found in source code. Mutation testing requires tests to be effective."), rfl, by decide⟩

theorem replace_operator_aux_error_ne :
    ∀ (fuel : Nat) (line : Str) (pos : Nat) (original replacement e : Str),
      replace_operator_aux fuel line pos original replacement = .error e → e ≠ [] := by
  intro fuel
  induction fuel with
  | zero =>
    intro line pos original replacement e h
    simp only [replace_operator_aux] at h
    injection h with h2
    subst h2
    exact List.cons_ne_nil _ _
  | succ n ih =>
    intro line pos original replacement e h
    simp only [replace_operator_aux] at h
    split at h
    · injection h with h2; subst h2; exact List.cons_ne_nil _ _
    · split at h
      · injection h with h2; subst h2; exact List.cons_ne_nil _ _
      · split at h
        · cases h
        · split at h
          · exact ih _ _ _ _ _ h
          · injection h with h2; subst h2; exact List.cons_ne_nil _ _

theorem replace_operator_at_position_error_ne (line : Str) (pos : Nat)
    (original replacement e : Str)
    (h : replace_operator_at_position line pos original replacement = .error e) : e ≠ [] :=
  replace_operator_aux_error_ne _ _ _ _ _ _ h

theorem replace_literal_at_position_error_ne (line : Str) (pos : Nat)
    (original replacement e : Str)
    (h : replace_literal_at_position line pos original replacement = .error e) : e ≠ [] := by
  unfold replace_literal_at_position at h
  split at h
  · exact replace_operator_at_position_error_ne _ _ _ _ _ h
  · injection h with h2; subst h2; exact List.cons_ne_nil _ _

theorem replace_condition_at_position_error_ne (line : Str) (pos : Nat)
    (replacement e : Str)
    (h : replace_condition_at_position line pos replacement = .error e) : e ≠ [] := by
  unfold replace_condition_at_position at h
  split at h
  · cases h
  · injection h with h2; subst h2; exact List.cons_ne_nil _ _

theorem apply_line_mutation_error_ne (line : Str) (c : MutationCandidate) (m e : Str)
    (h : apply_line_mutation line c m = .error e) : e ≠ [] := by
  unfold apply_line_mutation at h
  cases hc : c.mutation_type <;> simp only [hc] at h <;>
    first
    | exact replace_operator_at_position_error_ne _ _ _ _ _ h
    | exact replace_literal_at_position_error_ne _ _ _ _ _ h
    | exact replace_condition_at_position_error_ne _ _ _ _ h
    | (injection h with h2; subst h2; exact List.cons_ne_nil _ _)

theorem apply_mutation_error_ne (source_code : Str) (c : MutationCandidate) (m e : Str)
    (h : apply_mutation source_code c m = .error e) : e ≠ [] := by
  simp only [apply_mutation] at h
  split at h
  · injection h with h2; subst h2; exact List.cons_ne_nil _ _
  · split at h
    · injection h with h2; subst h2; exact List.cons_ne_nil _ _
    · split at h
      next e2 heq => injection h with h2; subst h2; exact apply_line_mutation_error_ne _ _ _ _ heq
      next => cases h

/-- C7 counterexample: the analyzer's numeric suggestion list for the literal
`0` contains `0` itself (`(0 * -1).to_string() == "0"`), and for such a call —
replacement equal to `original_code` but present in `suggested_mutations` —
`apply_mutation` succeeds, returning the unchanged text, instead of rejecting
it. -/
def src_zero : Str := str (r"x = 0;")

def cand_zero : MutationCandidate where
  line := 1
  column := 5
  original_code := ['0']
  mutation_type := .NumericLiteral
  suggested_mutations := [str (r"1"), str (r"-1"), str (r"0"), str (r"0"), str (r"1")]

theorem spec_C7_cex :
    cand_zero ∈ find_mutation_candidates default_config src_zero ∧
    cand_zero.original_code ∈ cand_zero.suggested_mutations ∧
    apply_mutation src_zero cand_zero cand_zero.original_code = .ok src_zero :=
  ⟨by decide, by decide, by rfl⟩

/-- C7 amended: the precondition `apply_mutation` actually enforces is
membership in the suggestion list — a replacement not contained in
`suggested_mutations` is rejected with a structured (non-empty) failure; a
replacement equal to `original_code` is rejected only when it is not among
the suggested mutations (the counterexample shows a suggested self-replacement
succeeding). -/
theorem spec_C7 (source_code : Str) (c : MutationCandidate) (m : Str)
    (h : m ∉ c.suggested_mutations) :
    ∃ e, apply_mutation source_code c m = .error e ∧ e ≠ [] := by
  unfold apply_mutation
  rw [if_pos h]
  exact ⟨_, rfl, List.cons_ne_nil _ _⟩

theorem spec_C7_witness :
    (['/'] ∉ cand_plus.suggested_mutations) ∧
    ∃ e, apply_mutation (str (r"a + b")) cand_plus ['/'] = .error e ∧ e ≠ [] :=
  ⟨by decide, spec_C7 (str (r"a + b")) cand_plus ['/'] (by decide)⟩

/-- A runner environment whose subprocess layer reports an I/O failure on
every run (e.g. the test command cannot be spawned). -/
def env_io_error : RunnerEnv where
  tempdir_ok := true
  write_ok := true
  exec := fun _ => .io_error

/-- C3 counterexample: with a runner whose spawn fails, the engine produces
results whose `test_result` is `Error` but whose `error_message` is `None` —
the engine populates `error_message` only when applying the mutation itself
failed, contradicting the claim that runner-failure results also carry a
non-empty message. -/
theorem spec_C3_cex :
    ((process_candidate (run_tests_for_mutation env_io_error) (str (r"a + b")) cand_plus).map
      (fun r => (r.test_result, r.error_message))) =
      [(.Error, none), (.Error, none)] := by
  decide

/-- C3 amended: an engine result carries an `error_message` exactly when
applying the mutation failed; any such message is non-empty and the result's
outcome is `Error`.  Results whose mutation applied successfully — including
those whose runner outcome is `Error` (spawn or I/O failure, see the
counterexample) — carry `error_message = None`. -/
theorem spec_C3 (run : Str → RunnerOutcome) (source_code : Str)
    (c : MutationCandidate) (res : MutationResult) (e : Str)
    (hres : res ∈ process_candidate run source_code c)
    (hmsg : res.error_message = some e) :
    e ≠ [] ∧ res.test_result = .Error := by
  rcases List.mem_map.mp hres with ⟨m, -, rfl⟩
  cases happ : apply_mutation source_code c m with
  | ok code => simp [happ] at hmsg
  | error err =>
    simp only [happ] at hmsg ⊢
    simp only [Option.some.injEq] at hmsg
    subst hmsg
    exact ⟨apply_mutation_error_ne _ _ _ _ happ, by trivial⟩

/-- A candidate whose line number is out of range, so that applying it
fails. -/
def cand_bad_line : MutationCandidate :=
  { cand_plus with line := 99 }

def res_bad_line : MutationResult where
  candidate := cand_bad_line
  mutated_code := []
  test_result := .Error
  execution_time_ms := 0
  error_message := some (str (r"Invalid line number: ") ++ int_to_str 99)
  killing_tests := none
  suggested_improvement := none

theorem spec_C3_witness :
    res_bad_line ∈
      process_candidate (run_tests_for_mutation env_ok) (str (r"a + b")) cand_bad_line ∧
    res_bad_line.error_message = some (str (r"Invalid line number: ") ++ int_to_str 99) ∧
    ((str (r"Invalid line number: ") ++ int_to_str 99) ≠ [] ∧
      res_bad_line.test_result = .Error) :=
  ⟨by decide, by decide,
    spec_C3 (run_tests_for_mutation env_ok) (str (r"a + b")) cand_bad_line res_bad_line
      (str (r"Invalid line number: ") ++ int_to_str 99) (by decide) (by decide)⟩

theorem find_sub_occ :
    ∀ (s needle : Str) (i : Nat), find_sub s needle = some i → needle <+: s.drop i := by
  intro s
  induction s with
  | nil =>
    intro needle i h
    simp only [find_sub] at h
    split at h
    · next hn => injection h with h2; subst h2; simp [hn]
    · cases h
  | cons c t ih =>
    intro needle i h
    simp only [find_sub] at h
    split at h
    · next hp =>
      injection h with h2
      subst h2
      exact List.isPrefixOf_iff_prefix.mp hp
    · cases hrec : find_sub t needle with
      | none => rw [hrec] at h; cases h
      | some j =>
        rw [hrec] at h
        injection h with h2
        subst h2
        simpa using ih needle j hrec

theorem find_ops_aux_occ :
    ∀ (fuel : Nat) (line op : Str) (advance start p : Nat),
      p ∈ find_ops_aux line op advance fuel start → op <+: line.drop p := by
  intro fuel
  induction fuel with
  | zero => intro line op advance start p h; cases h
  | succ n ih =>
    intro line op advance start p h
    simp only [find_ops_aux] at h
    split at h
    · cases h
    · next pos heq =>
      rcases List.mem_cons.mp h with rfl | hmem
      · have h1 := find_sub_occ _ _ _ heq
        rw [List.drop_drop] at h1
        exact h1
      · exact ih line op advance _ p hmem

theorem prefix_drop_slice (line w : Str) (p : Nat) (hne : w ≠ [])
    (h : w <+: line.drop p) :
    slice_at line p w.length = w ∧ p + w.length ≤ line.length := by
  obtain ⟨t, ht⟩ := h
  constructor
  · unfold slice_at
    rw [← ht, List.take_left]
  · have hw := List.length_pos.mpr hne
    have hlen : (line.drop p).length = w.length + t.length := by rw [← ht]; simp
    simp only [List.length_drop] at hlen
    omega

theorem digit_runs_aux_sound :
    ∀ (fuel : Nat) (line s : Str) (i p : Nat) (lit : Str),
      line.drop i = s → (p, lit) ∈ digit_runs_aux fuel s i →
      lit <+: line.drop p ∧ lit ≠ [] ∧ lit.all Char.isDigit = true := by
  intro fuel
  induction fuel with
  | zero => intro line s i p lit _ h; simp [digit_runs_aux] at h
  | succ n ih =>
    intro line s i p lit hdrop h
    cases s with
    | nil => simp [digit_runs_aux] at h
    | cons c t =>
      simp only [digit_runs_aux] at h
      split at h
      · next hdig =>
        rcases List.mem_cons.mp h with heq | hmem
        · injection heq with h1 h2
          subst h1
          subst h2
          refine ⟨?_, ?_, ?_⟩
          · rw [hdrop]; exact List.takeWhile_prefix _
          · rw [List.takeWhile_cons_of_pos hdig]; exact List.cons_ne_nil _ _
          · exact List.all_eq_true.mpr fun x hx => List.mem_takeWhile_imp hx
        · refine ih line _ _ p lit ?_ hmem
          have hsplit := List.takeWhile_append_dropWhile (p := Char.isDigit) (l := c :: t)
          have h2 : (line.drop i).drop ((c :: t).takeWhile Char.isDigit).length
              = (c :: t).dropWhile Char.isDigit := by
            rw [hdrop]
            calc (c :: t).drop ((c :: t).takeWhile Char.isDigit).length
                = ((c :: t).takeWhile Char.isDigit ++
                    (c :: t).dropWhile Char.isDigit).drop
                      ((c :: t).takeWhile Char.isDigit).length := by rw [hsplit]
              _ = (c :: t).dropWhile Char.isDigit := List.drop_left _ _
          rw [List.drop_drop] at h2
          exact h2
      · refine ih line t (i + 1) p lit ?_ h
        have h2 : (line.drop i).drop 1 = t := by rw [hdrop]; rfl
        rw [List.drop_drop] at h2
        exact h2

theorem eraseIdx_append_cons (pre suf : Str) (x : Char) :
    (pre ++ x :: suf).eraseIdx pre.length = pre ++ suf := by
  induction pre with
  | nil => rfl
  | cons a t ih => simp [List.eraseIdx_cons_succ, ih]

theorem remove_n_append :
    ∀ (k : Nat) (pre suf : Str), k ≤ suf.length →
      remove_n (pre ++ suf) pre.length k = pre ++ suf.drop k := by
  intro k
  induction k with
  | zero => intro pre suf _; rfl
  | succ n ih =>
    intro pre suf hk
    match suf, hk with
    | y :: suf', hk =>
      show remove_n ((pre ++ y :: suf').eraseIdx pre.length) pre.length n = _
      rw [eraseIdx_append_cons]
      exact ih pre suf' (by simpa using hk)

theorem insert_at_append (pre suf : Str) (ch : Char) :
    insert_at (pre ++ suf) pre.length ch = pre ++ ch :: suf := by
  unfold insert_at
  rw [List.take_left, List.drop_left]

theorem insert_seq_append :
    ∀ (m pre suf : Str), insert_seq (pre ++ suf) pre.length m = pre ++ m ++ suf := by
  intro m
  induction m with
  | nil => intro pre suf; simp [insert_seq]
  | cons c r ih =>
    intro pre suf
    show insert_seq (insert_at (pre ++ suf) pre.length c) (pre.length + 1) r = _
    rw [insert_at_append]
    have h1 : pre ++ c :: suf = (pre ++ [c]) ++ suf := by simp
    have h2 : pre.length + 1 = (pre ++ [c]).length := by simp
    rw [h1, h2, ih (pre ++ [c]) suf]
    simp

theorem splice_append (pre w suf m : Str) :
    splice (pre ++ w ++ suf) pre.length w.length m = pre ++ m ++ suf := by
  unfold splice
  rw [List.append_assoc, remove_n_append w.length pre (w ++ suf) (by simp),
    List.drop_left, insert_seq_append]

theorem slice_decomp (L : Str) (pos n : Nat) (w : Str)
    (h : slice_at L pos n = w) (hn : pos + n ≤ L.length) :
    ∃ pre suf, L = pre ++ w ++ suf ∧ pre.length = pos := by
  refine ⟨L.take pos, L.drop (pos + n), ?_, List.length_take_of_le (by omega)⟩
  have h2 : L.drop pos = w ++ L.drop (pos + n) := by
    have h3 : (L.drop pos).drop n = L.drop (pos + n) := by rw [List.drop_drop]
    rw [← h, ← h3]
    exact (List.take_append_drop n (L.drop pos)).symm
  calc L = L.take pos ++ L.drop pos := (List.take_append_drop pos L).symm
    _ = L.take pos ++ (w ++ L.drop (pos + n)) := by rw [h2]
    _ = L.take pos ++ w ++ L.drop (pos + n) := by rw [List.append_assoc]

/-- What the analyzer guarantees about every candidate it emits on a line:
the original code occurs verbatim at the (0-based) position `column - 1`, is
non-empty, and its mutation type is one of the five the textual scanner
produces — word types additionally carrying all-alphanumeric original code. -/
def cand_on_line (L : Str) (n : Nat) (c : MutationCandidate) : Prop :=
  c.line = n ∧ ∃ pos, c.column = pos + 1 ∧
    slice_at L pos c.original_code.length = c.original_code ∧
    c.original_code ≠ [] ∧
    pos + c.original_code.length ≤ L.length ∧
    (c.mutation_type = .ArithmeticOperator ∨ c.mutation_type = .RelationalOperator ∨
     c.mutation_type = .LogicalOperator ∨
     ((c.mutation_type = .BooleanLiteral ∨ c.mutation_type = .NumericLiteral) ∧
      c.original_code.all Char.isAlphanum = true))

theorem find_arithmetic_operators_sound (line : Str) (n : Nat) (c : MutationCandidate)
    (h : c ∈ find_arithmetic_operators line n) : cand_on_line line n c := by
  simp only [find_arithmetic_operators, find_occurrences, List.mem_flatMap, List.mem_map,
    List.mem_filter] at h
  obtain ⟨op, hop, p, ⟨hpmem, -⟩, rfl⟩ := h
  have hne : op ≠ [] := by
    simp only [List.mem_cons, List.not_mem_nil, or_false] at hop
    rcases hop with rfl | rfl | rfl | rfl | rfl <;> decide
  obtain ⟨hs, hb⟩ := prefix_drop_slice line op p hne (find_ops_aux_occ _ _ _ _ _ _ hpmem)
  exact ⟨rfl, p, rfl, hs, hne, hb, Or.inl rfl⟩

theorem find_relational_operators_sound (line : Str) (n : Nat) (c : MutationCandidate)
    (h : c ∈ find_relational_operators line n) : cand_on_line line n c := by
  simp only [find_relational_operators, find_occurrences, List.mem_flatMap,
    List.mem_map] at h
  obtain ⟨op, hop, p, hpmem, rfl⟩ := h
  have hne : op ≠ [] := by
    simp only [List.mem_cons, List.not_mem_nil, or_false] at hop
    rcases hop with rfl | rfl | rfl | rfl | rfl | rfl <;> decide
  obtain ⟨hs, hb⟩ := prefix_drop_slice line op p hne (find_ops_aux_occ _ _ _ _ _ _ hpmem)
  exact ⟨rfl, p, rfl, hs, hne, hb, Or.inr (Or.inl rfl)⟩

theorem find_logical_operators_sound (line : Str) (n : Nat) (c : MutationCandidate)
    (h : c ∈ find_logical_operators line n) : cand_on_line line n c := by
  simp only [find_logical_operators, find_occurrences, List.mem_flatMap, List.mem_map] at h
  obtain ⟨op, hop, p, hpmem, rfl⟩ := h
  have hne : op ≠ [] := by
    simp only [List.mem_cons, List.not_mem_nil, or_false] at hop
    rcases hop with rfl | rfl | rfl <;> decide
  obtain ⟨hs, hb⟩ := prefix_drop_slice line op p hne (find_ops_aux_occ _ _ _ _ _ _ hpmem)
  exact ⟨rfl, p, rfl, hs, hne, hb, Or.inr (Or.inr (Or.inl rfl))⟩

theorem find_boolean_literals_sound (line : Str) (n : Nat) (c : MutationCandidate)
    (h : c ∈ find_boolean_literals line n) : cand_on_line line n c := by
  simp only [find_boolean_literals, find_occurrences, List.mem_flatMap, List.mem_map,
    List.mem_filter] at h
  obtain ⟨lit, hlit, p, ⟨hpmem, -⟩, rfl⟩ := h
  have hne : lit ≠ [] := by
    simp only [List.mem_cons, List.not_mem_nil, or_false] at hlit
    rcases hlit with rfl | rfl <;> decide
  have halnum : lit.all Char.isAlphanum = true := by
    simp only [List.mem_cons, List.not_mem_nil, or_false] at hlit
    rcases hlit with rfl | rfl <;> decide
  obtain ⟨hs, hb⟩ := prefix_drop_slice line lit p hne (find_ops_aux_occ _ _ _ _ _ _ hpmem)
  exact ⟨rfl, p, rfl, hs, hne, hb, Or.inr (Or.inr (Or.inr ⟨Or.inl rfl, halnum⟩))⟩

theorem find_numeric_literals_sound (line : Str) (n : Nat) (c : MutationCandidate)
    (h : c ∈ find_numeric_literals line n) : cand_on_line line n c := by
  simp only [find_numeric_literals, List.mem_map] at h
  obtain ⟨pr, hpr, rfl⟩ := h
  obtain ⟨hpre, hne, hdig⟩ :=
    digit_runs_aux_sound (line.length + 1) line line 0 pr.1 pr.2 rfl hpr
  have halnum : pr.2.all Char.isAlphanum = true := by
    rw [List.all_eq_true] at hdig ⊢
    intro x hx
    have hd := hdig x hx
    simp [Char.isAlphanum, hd]
  obtain ⟨hs, hb⟩ := prefix_drop_slice line pr.2 pr.1 hne hpre
  exact ⟨rfl, pr.1, rfl, hs, hne, hb, Or.inr (Or.inr (Or.inr ⟨Or.inr rfl, halnum⟩))⟩

theorem analyze_line_sound (config : MutationTestConfig) (L : Str) (n : Nat)
    (c : MutationCandidate) (h : c ∈ analyze_line config L n) : cand_on_line L n c := by
  unfold analyze_line at h
  rcases List.mem_append.mp h with h5 | h6
  · rcases List.mem_append.mp h5 with h4 | h5
    · rcases List.mem_append.mp h4 with h3 | h4
      · rcases List.mem_append.mp h3 with h2 | h3
        · rcases List.mem_append.mp h2 with h1 | h2
          · split at h1
            · exact find_arithmetic_operators_sound L n c h1
            · simp at h1
          · split at h2
            · exact find_relational_operators_sound L n c h2
            · simp at h2
        · split at h3
          · exact find_logical_operators_sound L n c h3
          · simp at h3
      · split at h4
        · exact find_boolean_literals_sound L n c h4
        · simp at h4
    · split at h5
      · exact find_numeric_literals_sound L n c h5
      · simp at h5
  · split at h6 <;> simp [find_conditional_boundaries] at h6

theorem analyzer_sound (config : MutationTestConfig) (source : Str) (c : MutationCandidate)
    (h : c ∈ find_mutation_candidates config source) :
    ∃ L, (rust_lines source)[c.line - 1]? = some L ∧ cand_on_line L c.line c := by
  unfold find_mutation_candidates at h
  rw [List.mem_flatMap] at h
  obtain ⟨p, hp, hc⟩ := h
  split at hc
  · simp at hc
  · have hsound := analyze_line_sound config p.2 (p.1 + 1) c hc
    have hline : c.line = p.1 + 1 := hsound.1
    have hget : (rust_lines source)[p.1]? = some p.2 :=
      List.mk_mem_enum_iff_getElem?.mp hp
    refine ⟨p.2, ?_, ?_⟩
    · rw [hline]
      simpa using hget
    · rw [hline]
      exact hsound

theorem slice_char (L : Str) (pos n : Nat) (w : Str) (h : slice_at L pos n = w)
    (k : Nat) (hk : k < n) : L[pos + k]? = w[k]? := by
  subst h
  show L[pos + k]? = ((L.drop pos).take n)[k]?
  rw [List.getElem?_take_of_lt hk, List.getElem?_drop]

theorem word_char_at (L w : Str) (pos : Nat)
    (hs : slice_at L pos w.length = w) (halnum : w.all Char.isAlphanum = true)
    (k : Nat) (hk : k < w.length) : is_word_char (L.getD (pos + k) ' ') = true := by
  have h1 : L[pos + k]? = w[k]? := slice_char L pos w.length w hs k hk
  have h2 : w[k]? = some w[k] := List.getElem?_eq_getElem hk
  have h3 : L.getD (pos + k) ' ' = w[k] := by
    rw [List.getD_eq_getElem?_getD, h1, h2]
    rfl
  have h4 : Char.isAlphanum w[k] = true :=
    List.all_eq_true.mp halnum _ (List.getElem_mem hk)
  rw [h3]
  simp [is_word_char, h4]

/-- The search loop of `find_complete_word_at_position` can only succeed at
the original position when the word sits there and is alphanumeric: any other
index in the ±word-length window overlaps the occurrence at `pos`, so one of
its boundary neighbours is a character of the word itself and the boundary
test fails. -/
theorem find_complete_word_eq_pos (line w : Str) (pos i : Nat)
    (hs : slice_at line pos w.length = w) (hne : w ≠ [])
    (halnum : w.all Char.isAlphanum = true) (hb : pos + w.length ≤ line.length)
    (h : find_complete_word_at_position line pos w = some i) : i = pos := by
  unfold find_complete_word_at_position at h
  have hpred := List.find?_some h
  have hmem := List.mem_of_find?_eq_some h
  rw [List.mem_range'_1] at hmem
  have hwpos := List.length_pos.mpr hne
  simp only [Bool.and_eq_true, decide_eq_true_eq, beq_iff_eq] at hpred
  obtain ⟨⟨hib, hisl⟩, hbnd⟩ := hpred
  simp only [is_complete_word, Bool.and_eq_true, Bool.or_eq_true, decide_eq_true_eq,
    Bool.not_eq_true'] at hbnd
  obtain ⟨hbnd1, hbnd2⟩ := hbnd
  have hse1 : min (pos + w.length) line.length ≤ pos + w.length := Nat.min_le_left _ _
  obtain ⟨hlow, hhigh⟩ := hmem
  by_contra hne2
  rcases Nat.lt_or_ge i pos with hlt | hge
  · have hklt : i + w.length - pos < w.length := by omega
    have hchar := word_char_at line w pos hs halnum (i + w.length - pos) hklt
    have harith : pos + (i + w.length - pos) = i + w.length := by omega
    rw [harith] at hchar
    rcases hbnd2 with h2 | h2
    · omega
    · rw [h2] at hchar
      simp at hchar
  · have hgt : pos < i := by omega
    have hile : i ≤ pos + w.length := by omega
    have hk2 : i - 1 - pos < w.length := by omega
    have hchar := word_char_at line w pos hs halnum (i - 1 - pos) hk2
    have harith : pos + (i - 1 - pos) = i - 1 := by omega
    rw [harith] at hchar
    rcases hbnd1 with h1 | h1
    · omega
    · rw [h1] at hchar
      simp at hchar

theorem replace_operator_aux_ok (fuel : Nat) (line : Str) (pos : Nat)
    (original replacement : Str)
    (hs : slice_at line pos original.length = original) (hne : original ≠ [])
    (hb : pos + original.length ≤ line.length) :
    replace_operator_aux (fuel + 1) line pos original replacement =
      .ok (splice line pos original.length replacement) := by
  have hwpos := List.length_pos.mpr hne
  simp only [replace_operator_aux]
  rw [if_neg (by omega), if_neg (by omega), if_pos hs]

theorem replace_operator_at_position_ok (line : Str) (pos : Nat)
    (original replacement : Str)
    (hs : slice_at line pos original.length = original) (hne : original ≠ [])
    (hb : pos + original.length ≤ line.length) :
    replace_operator_at_position line pos original replacement =
      .ok (splice line pos original.length replacement) :=
  replace_operator_aux_ok (line.length + 1) line pos original replacement hs hne hb

theorem replace_operator_ok_eq (line w m out : Str) (pos : Nat)
    (hs : slice_at line pos w.length = w) (hne : w ≠ [])
    (hb : pos + w.length ≤ line.length)
    (h : replace_operator_at_position line pos w m = .ok out) :
    out = splice line pos w.length m := by
  rw [replace_operator_at_position_ok line pos w m hs hne hb] at h
  injection h with h2
  exact h2.symm

theorem replace_literal_ok_eq (line w m out : Str) (pos : Nat)
    (hs : slice_at line pos w.length = w) (hne : w ≠ [])
    (halnum : w.all Char.isAlphanum = true) (hb : pos + w.length ≤ line.length)
    (h : replace_literal_at_position line pos w m = .ok out) :
    out = splice line pos w.length m := by
  unfold replace_literal_at_position at h
  split at h
  · next i heq =>
    have hi := find_complete_word_eq_pos line w pos i hs hne halnum hb heq
    rw [hi] at h
    exact replace_operator_ok_eq line w m out pos hs hne hb h
  · cases h

/-- C5 amended: for every candidate the analyzer emits on `S` and every
successful `apply_mutation`, the result is obtained from the lines of `S` by
replacing, on line `c.line`, exactly the span of `original_code` at column
`c.column` with the replacement — a single-span change whenever the
replacement differs from the original — and re-joining all lines with `\n`.
Because of that re-join, the line terminators of `S` are normalized to `\n`
and a trailing newline of `S` is dropped (see the counterexample), so the
claim's "every other character of S, including line terminators and any
trailing newline, is unchanged" does not hold verbatim. -/
theorem spec_C5 (config : MutationTestConfig) (source : Str) (c : MutationCandidate)
    (m R : Str)
    (hc : c ∈ find_mutation_candidates config source)
    (happly : apply_mutation source c m = .ok R) :
    ∃ L pre suf,
      (rust_lines source)[c.line - 1]? = some L ∧
      L = pre ++ c.original_code ++ suf ∧
      pre.length = c.column - 1 ∧
      R = join_nl ((rust_lines source).set (c.line - 1) (pre ++ m ++ suf)) := by
  obtain ⟨L, hL, -, pos, hcol, hs, hne, hb, hty⟩ := analyzer_sound config source c hc
  simp only [apply_mutation] at happly
  split at happly
  · cases happly
  · split at happly
    · cases happly
    · have hgetD : (rust_lines source).getD (c.line - 1) [] = L := by
        rw [List.getD_eq_getElem?_getD, hL]
        rfl
      rw [hgetD] at happly
      split at happly
      · cases happly
      · next ml heq =>
        injection happly with hR
        have hcolpos : c.column - 1 = pos := by omega
        have hml : ml = splice L pos c.original_code.length m := by
          simp only [apply_line_mutation] at heq
          rw [hcolpos] at heq
          rcases hty with hty | hty | hty | ⟨hty, halnum⟩
          · rw [hty] at heq
            exact replace_operator_ok_eq L c.original_code m ml pos hs hne hb heq
          · rw [hty] at heq
            exact replace_operator_ok_eq L c.original_code m ml pos hs hne hb heq
          · rw [hty] at heq
            exact replace_operator_ok_eq L c.original_code m ml pos hs hne hb heq
          · rcases hty with hty | hty <;> rw [hty] at heq <;>
              exact replace_literal_ok_eq L c.original_code m ml pos hs hne halnum hb heq
        obtain ⟨pre, suf, hdecomp, hpre⟩ :=
          slice_decomp L pos c.original_code.length c.original_code hs hb
        have hsp : splice L pos c.original_code.length m = pre ++ m ++ suf := by
          rw [hdecomp, ← hpre]
          exact splice_append pre c.original_code suf m
        refine ⟨L, pre, suf, hL, hdecomp, by omega, ?_⟩
        rw [← hR, hml, hsp]

/-- The source `a + b\n` — one line plus a trailing newline. -/
def src_nl : Str := str (r"a + b") ++ ['\n']

/-- C5 counterexample: on `S = "a + b\n"` the analyzer emits the `+` candidate
and `apply_mutation` succeeds, but the result is `"a - b"` — the trailing
newline of `S` is dropped by the `lines`/`join("\n")` round trip.  The claim
requires every character outside the mutated span, including the trailing
newline, to be unchanged: with the unique decomposition
`S = "a " ++ "+" ++ " b\n"`, that would force the result `"a - b\n"`, which
differs from what `apply_mutation` returns. -/
theorem spec_C5_cex :
    cand_plus ∈ find_mutation_candidates default_config src_nl ∧
    apply_mutation src_nl cand_plus ['-'] = .ok (str (r"a - b")) ∧
    src_nl = str (r"a ") ++ ['+'] ++ (str (r" b") ++ ['\n']) ∧
    str (r"a - b") ≠ str (r"a ") ++ ['-'] ++ (str (r" b") ++ ['\n']) :=
  ⟨by decide, by rfl, by decide, by decide⟩

theorem spec_C5_witness :
    cand_plus ∈ find_mutation_candidates default_config (str (r"a + b")) ∧
    apply_mutation (str (r"a + b")) cand_plus ['-'] = .ok (str (r"a - b")) ∧
    (∃ L pre suf,
      (rust_lines (str (r"a + b")))[cand_plus.line - 1]? = some L ∧
      L = pre ++ cand_plus.original_code ++ suf ∧
      pre.length = cand_plus.column - 1 ∧
      str (r"a - b") =
        join_nl ((rust_lines (str (r"a + b"))).set (cand_plus.line - 1)
          (pre ++ ['-'] ++ suf))) :=
  ⟨by decide, by rfl,
    spec_C5 default_config (str (r"a + b")) cand_plus ['-'] (str (r"a - b"))
      (by decide) (by rfl)⟩
